import Mathlib

/-!
Verification of the VisionParser pipeline: a shallow embedding of the
configuration layer, the image-data extractor, and the data processor,
with theorems checking the documented behaviour against the embedding.

Python strings are modelled as `String` (or `List Char` where character
level manipulation matters), Python `int` as `Int`/`Nat`, Python `float`
as `Rat` (the values involved are exact decimals), Python exceptions as
`Except`-style sum types.
-/

namespace VisionParser

/-- `Path(p).name` of a POSIX path string without a trailing slash: the
characters after the last `'/'` (the whole string when there is none). -/
def baseName (p : String) : String :=
  String.mk ((p.data.reverse.takeWhile (fun c => c ≠ '/')).reverse)

/-- `xs` begins with the list `pre` (character-level model of Python's
`str.startswith`). -/
def listStartsWith : List Char → List Char → Bool
  | [], _ => true
  | _ :: _, [] => false
  | p :: ps, c :: cs => p == c && listStartsWith ps cs

/-- Python's `s.startswith(pre)` on strings. -/
def strStartsWith (s pre : String) : Bool := listStartsWith pre.data s.data

/-- Lexicographic comparison by code point on char lists: `a ≤ b` in the
order Python uses to compare strings (and hence, for paths sharing one
parent directory, the order `sorted()` puts `Path` objects in). -/
def listLe : List Char → List Char → Bool
  | [], _ => true
  | _ :: _, [] => false
  | a :: as, b :: bs =>
    if a < b then true
    else if a = b then listLe as bs
    else false

/-- Path order used by `sorted()` over the scanned image files. -/
def pathLe (a b : String) : Prop := listLe a.data b.data = true

instance : DecidableRel pathLe := fun a b => Bool.decEq (listLe a.data b.data) true

instance : IsTotal String pathLe := by
  constructor
  have key : ∀ a b : List Char, listLe a b = true ∨ listLe b a = true := by
    intro a
    induction a with
    | nil => intro b; left; rfl
    | cons x xs ih =>
      intro b
      cases b with
      | nil => right; rfl
      | cons y ys =>
        rcases lt_trichotomy x y with h | h | h
        · left; simp [listLe, h]
        · subst h
          rcases ih ys with h | h
          · left; simp [listLe, h]
          · right; simp [listLe, h]
        · right; simp [listLe, h]
  intro a b
  exact key a.data b.data

instance : IsTrans String pathLe := by
  constructor
  have hc : ∀ (x y : Char) (xs ys : List Char),
      listLe (x :: xs) (y :: ys) = true ↔ x < y ∨ (x = y ∧ listLe xs ys = true) := by
    intro x y xs ys
    simp only [listLe]
    split_ifs with h1 h2
    · simp [h1]
    · simp [h1, h2]
    · simp [h1, h2]
  have key : ∀ a b c : List Char,
      listLe a b = true → listLe b c = true → listLe a c = true := by
    intro a
    induction a with
    | nil => intro b c _ _; rfl
    | cons x xs ih =>
      intro b c hab hbc
      cases b with
      | nil => simp [listLe] at hab
      | cons y ys =>
        cases c with
        | nil => simp [listLe] at hbc
        | cons z zs =>
          rcases (hc x y xs ys).1 hab with h1 | ⟨he1, h1⟩
          · rcases (hc y z ys zs).1 hbc with h2 | ⟨he2, h2⟩
            · exact (hc x z xs zs).2 (Or.inl (lt_trans h1 h2))
            · exact (hc x z xs zs).2 (Or.inl (he2 ▸ h1))
          · rcases (hc y z ys zs).1 hbc with h2 | ⟨he2, h2⟩
            · exact (hc x z xs zs).2 (Or.inl (he1 ▸ h2))
            · exact (hc x z xs zs).2 (Or.inr ⟨he1.trans he2, ih ys zs h1 h2⟩)
  intro a b c
  exact key a.data b.data c.data

/-! ## ImageFolderConfig (src/models/image_folder_config.py) -/

/-- Python's `str.lower()` (the extensions involved are ASCII). -/
def pyLower (s : String) : String := String.mk (s.data.map Char.toLower)

/-- `Path(p).suffix`: the extension of the final component including the
dot; empty when the name has no dot, when the only dot is the leading
character, or when the dot is the final character (CPython's
`0 < name.rfind('.') < len(name) - 1` rule). -/
def pathSuffix (p : String) : String :=
  let name := (baseName p).data
  match name.reverse.findIdx? (fun c => c == '.') with
  | none => ""
  | some j =>
    if 1 ≤ j ∧ j < name.length - 1 then String.mk ((name.reverse.take (j + 1)).reverse)
    else ""

/-- `ImageFolderConfig.SUPPORTED_EXTENSIONS`. -/
def SUPPORTED_EXTENSIONS : List String := [".png", ".jpg", ".jpeg", ".bmp", ".tiff"]

/-- The filter applied to each `iterdir()` entry:
`f.suffix.lower() in SUPPORTED_EXTENSIONS`. -/
def isImageFile (f : String) : Bool :=
  SUPPORTED_EXTENSIONS.contains (pyLower (pathSuffix f))

/-- Error kinds raised by `ImageFolderConfig`. -/
inductive ImageFolderConfigError where
  | imageFolderNotFound (folder_path : String)
  | noImageFilesFound (folder_path : String)
deriving DecidableEq

/-- `ImageFolderConfig.get_image_files`: `folderExists` is
`folder_path.exists()`, `entries` are the paths yielded by the
non-recursive `iterdir()` scan (in arbitrary order).  Raises
`ImageFolderNotFoundError` when the folder is missing, otherwise filters
entries by supported extension, sorts them, and raises
`NoImageFilesError` when none remain. -/
def get_image_files (folder_path : String) (folderExists : Bool)
    (entries : List String) : Except ImageFolderConfigError (List String) :=
  if ¬folderExists then .error (.imageFolderNotFound folder_path)
  else
    let image_files := List.insertionSort pathLe (entries.filter isImageFile)
    if image_files.isEmpty then .error (.noImageFilesFound folder_path)
    else .ok image_files

/-! ## OpenAIConfig (src/models/openai_config.py) -/

/-- Error kinds raised by the `OpenAIConfig` setters. -/
inductive OpenAIConfigError where
  | invalidMaxTokens (value : Int)
  | invalidTemperature (value : Rat)
deriving DecidableEq

/-- State of an `OpenAIConfig` object (the private attributes). -/
structure OpenAIConfig where
  api_key : String
  model : String
  max_tokens : Int
  temperature : Rat
deriving DecidableEq

/-- The `max_tokens` setter: rejects `value <= 0` with `InvalidMaxTokensError`
and leaves the object unchanged; otherwise stores the value.  The returned
pair is (object state after the call, raised error if any). -/
def setMaxTokens (c : OpenAIConfig) (value : Int) :
    OpenAIConfig × Option OpenAIConfigError :=
  if value ≤ 0 then (c, some (.invalidMaxTokens value))
  else (⟨c.api_key, c.model, value, c.temperature⟩, none)

/-- The `temperature` setter: rejects values outside `[0.0, 2.0]` with
`InvalidTemperatureError` and leaves the object unchanged; otherwise stores
the value. -/
def setTemperature (c : OpenAIConfig) (value : Rat) :
    OpenAIConfig × Option OpenAIConfigError :=
  if ¬(0 ≤ value ∧ value ≤ 2) then (c, some (.invalidTemperature value))
  else (⟨c.api_key, c.model, c.max_tokens, value⟩, none)

/-! ## EnvConfig (src/models/env_config.py) -/

/-- Error kinds raised by `EnvConfig.get_openai_api_key`. -/
inductive EnvConfigError where
  | openAIKeyNotFound
  | openAIKeyInvalid
deriving DecidableEq

/-- `EnvConfig.get_openai_api_key`: `envValue` is `os.environ.get("OPENAI_API_KEY")`
(`none` when the variable is unset).  A missing or empty key raises
`OpenAIKeyNotFoundError`; the placeholder value or a key without the `"sk-"`
prefix raises `OpenAIKeyInvalidError`; otherwise the key is returned. -/
def get_openai_api_key (envValue : Option String) : Except EnvConfigError String :=
  match envValue with
  | none => .error .openAIKeyNotFound
  | some api_key =>
    if api_key = "" then .error .openAIKeyNotFound
    else if api_key = "your-api-key-here" then .error .openAIKeyInvalid
    else if ¬(strStartsWith api_key "sk-") then .error .openAIKeyInvalid
    else .ok api_key

/-! ## ProcessingResult (src/services/processor.py) -/

/-- The `ProcessingResult` dataclass, polymorphic in the record type
accumulated in `all_results`. -/
structure ProcessingResult (α : Type) where
  total_images : Nat
  successful_images : Nat
  failed_images : List String
  total_records : Nat
  all_results : List α

/-- The `success_rate` property: `0.0` when there are no images, otherwise
`successful / total * 100` (exact rational arithmetic). -/
def ProcessingResult.success_rate {α : Type} (r : ProcessingResult α) : Rat :=
  if r.total_images = 0 then 0
  else ((r.successful_images : Rat) / (r.total_images : Rat)) * 100

/-! ## DataProcessor.process_images (src/services/processor.py) -/

/-- One iteration of the `process_images` loop.  The fold state is
`(all_results, total_records, failed_images)`.  A raised exception or an
empty record list appends the image's base name to `failed_images`;
otherwise the records are appended to `all_results` and counted. -/
def processStep {α ε : Type} (extract : String → Except ε (List α))
    (acc : List α × Nat × List String) (image_file : String) :
    List α × Nat × List String :=
  match extract image_file with
  | .ok records =>
    if records.isEmpty then (acc.1, acc.2.1, acc.2.2 ++ [baseName image_file])
    else (acc.1 ++ records, acc.2.1 + records.length, acc.2.2)
  | .error _ => (acc.1, acc.2.1, acc.2.2 ++ [baseName image_file])

/-- `DataProcessor.process_images`, abstracted over the extractor call
(`extract p` is `self.extractor.extract_all_info(str(p))`, returning the
record list or the raised exception). -/
def process_images {α ε : Type} (extract : String → Except ε (List α))
    (image_files : List String) : ProcessingResult α :=
  let st := image_files.foldl (processStep extract) ([], 0, [])
  ⟨image_files.length, image_files.length - st.2.2.length, st.2.2, st.2.1, st.1⟩

/-- An image counts as failed exactly when the extractor raises or returns
zero records for it. -/
def imageFails {α ε : Type} (extract : String → Except ε (List α))
    (f : String) : Bool :=
  match extract f with
  | .ok records => records.isEmpty
  | .error _ => true

/-! ## ImageDataExtractor (src/services/extractor.py) -/

/-- The ASCII whitespace characters removed by Python's `str.strip()`. -/
def pyIsSpace (c : Char) : Bool :=
  c = ' ' || c = '\t' || c = '\n' || c = '\r' || c = '\x0b' || c = '\x0c'

/-- Python's `str.strip()` on a char list: drop whitespace from both ends. -/
def pyStrip (cs : List Char) : List Char :=
  ((cs.dropWhile pyIsSpace).reverse.dropWhile pyIsSpace).reverse

/-- `cs` ends with the list `suf` (Python's `str.endswith`). -/
def listEndsWith (suf cs : List Char) : Bool :=
  listStartsWith suf.reverse cs.reverse

/-- The code-fence cleanup in `extract_all_info`: strip whitespace, drop a
leading `"```json"` marker (7 chars), then a leading `"```"` marker
(3 chars), then a trailing `"```"` marker, and strip whitespace again. -/
def cleanContent (raw : List Char) : List Char :=
  let content := pyStrip raw
  let content :=
    if listStartsWith "```json".data content then content.drop 7 else content
  let content :=
    if listStartsWith "```".data content then content.drop 3 else content
  let content :=
    if listEndsWith "```".data content then content.take (content.length - 3)
    else content
  pyStrip content

/-- A response text wrapped in an opening ```` ```json ```` fence and a
closing ```` ``` ```` fence with surrounding newlines. -/
def fenceWrapJson (t : List Char) : List Char :=
  "```json\n".data ++ t ++ "\n```".data

/-- A response text wrapped in a bare ```` ``` ```` fence on both sides. -/
def fenceWrapPlain (t : List Char) : List Char :=
  "```\n".data ++ t ++ "\n```".data

/-- JSON values as produced by `json.loads`. -/
inductive JValue where
  | jnull
  | jbool (b : Bool)
  | jnum (n : Int)
  | jstr (s : String)
  | jarr (elems : List JValue)
  | jobj (entries : List (String × JValue))

/-- An extracted record: a Python dict (key-value pairs in insertion
order). -/
abbrev ExtRecord := List (String × JValue)

/-- Python iteration `for data in data_list`: arrays iterate elements,
dicts iterate their keys, strings iterate their characters; the scalar
JSON values are not iterable and raise `TypeError`. -/
def pyIter : JValue → Except String (List JValue)
  | .jarr elems => .ok elems
  | .jobj entries => .ok (entries.map (fun kv => .jstr kv.1))
  | .jstr s => .ok (s.data.map (fun c => .jstr (String.mk [c])))
  | _ => .error "TypeError: not iterable"

/-- The value `entries.get(key, "")` returns on a dict. -/
def jsonFieldOrEmpty (entries : List (String × JValue)) (key : String) : JValue :=
  match entries.lookup key with
  | some v => v
  | none => .jstr ""

/-- `data.get(key, "")`: raises `AttributeError` unless `data` is a dict. -/
def pyGetOrEmpty : JValue → String → Except String JValue
  | .jobj entries, key => .ok (jsonFieldOrEmpty entries key)
  | _, _ => .error "AttributeError"

/-- The record built for one parsed object: `filename` injected from the
source path's base name, the other three fields copied from the parsed
object with `""` as default. -/
def formatRecord (image_path : String) (data : JValue) :
    Except String ExtRecord := do
  let e ← pyGetOrEmpty data "email"
  let f ← pyGetOrEmpty data "firstname"
  let n ← pyGetOrEmpty data "name"
  pure [("filename", .jstr (baseName image_path)),
        ("email", e), ("firstname", f), ("name", n)]

/-- The two exception classes raised by `ImageDataExtractor.extract_all_info`,
distinguishable by constructor: `OpenAIAPIError` carries a message (and the
wrapped `JSONDecodeError`), `ImageProcessingError` carries the image path
and the wrapped original exception. -/
inductive ExtractError where
  | openAIAPIError (message : String) (cause : String)
  | imageProcessingError (image_path : String) (cause : String)

/-- `ImageDataExtractor.extract_all_info`, abstracted over the encoder
(`encode p` models `encode_image(p)`), the API round-trip (`api b` models
the chat-completions call plus the `response.choices[0].message.content`
access, returning the raw response text or the raised exception), and the
JSON parser (`loads cs` models `json.loads(cs)`, whose only failure mode is
`json.JSONDecodeError`).  The `try/except` maps a `JSONDecodeError` to
`OpenAIAPIError` with the image path in the message, and every other
exception to `ImageProcessingError` wrapping the path and the cause. -/
def extract_all_info
    (encode : String → Except String String)
    (api : String → Except String (List Char))
    (loads : List Char → Except String JValue)
    (image_path : String) : Except ExtractError (List ExtRecord) :=
  match encode image_path with
  | .error e => .error (.imageProcessingError image_path e)
  | .ok base64_image =>
    match api base64_image with
    | .error e => .error (.imageProcessingError image_path e)
    | .ok raw =>
      match loads (cleanContent raw) with
      | .error e => .error (.openAIAPIError ("JSON parse error: " ++ image_path) e)
      | .ok parsed =>
        match pyIter parsed with
        | .error e => .error (.imageProcessingError image_path e)
        | .ok data_list =>
          match data_list.mapM (formatRecord image_path) with
          | .error e => .error (.imageProcessingError image_path e)
          | .ok results => .ok results

/-- `needle` occurs as a substring of `hay`. -/
def strContainsSub (hay needle : String) : Prop :=
  ∃ l r, hay = l ++ needle ++ r

/-! ## DataProcessor.save_to_csv (src/services/processor.py)

`save_to_csv` opens the output file with mode `"w"` (truncating it),
builds a `csv.DictWriter` over the configured field list, writes the
header, then one row per record.  The embedding models CPython's `csv`
module for the default dialect used here: delimiter `','`, quote char
`'"'`, doublequote escaping, `QUOTE_MINIMAL`, line terminator `"\r\n"`,
`restval=""` and `extrasaction="raise"`. -/

/-- A record passed to `save_to_csv`: a Python dict from field name to
string value. -/
abbrev CsvRecord := List (String × String)

/-- Under `QUOTE_MINIMAL` a field is quoted when it contains the
delimiter, the quote char, or a line-terminator character. -/
def needsQuote (s : List Char) : Bool :=
  s.any (fun c => c = ',' || c = '"' || c = '\r' || c = '\n')

/-- The writer doubles each quote character inside a quoted field. -/
def escapeQuotes : List Char → List Char
  | [] => []
  | c :: cs =>
    if c = '"' then '"' :: '"' :: escapeQuotes cs else c :: escapeQuotes cs

/-- Render one field of a row with `numFields` fields: quote and escape
when needed; a lone empty field in a one-field row is also quoted
(CPython's `num_fields == 1` rule, keeping the row distinguishable from an
empty row). -/
def formatField (numFields : Nat) (s : List Char) : List Char :=
  if needsQuote s || (numFields == 1 && s.isEmpty) then
    '"' :: (escapeQuotes s ++ ['"'])
  else s

/-- `','.join`, used between rendered fields. -/
def joinComma : List (List Char) → List Char
  | [] => []
  | [v] => v
  | v :: vs => v ++ [','] ++ joinComma vs

/-- Render one row: comma-joined fields terminated by CRLF. -/
def formatRow (vals : List (List Char)) : List Char :=
  joinComma (vals.map (formatField vals.length)) ++ ['\r', '\n']

/-- `DictWriter._dict_to_list`'s `extrasaction="raise"` check: the record
has a key outside the field list. -/
def hasExtraKey (fields : List String) (r : CsvRecord) : Bool :=
  r.any (fun kv => !(fields.contains kv.1))

/-- The value written for field `f` of record `r`:
`rowdict.get(key, restval)` with `restval = ""`. -/
def fieldValue (r : CsvRecord) (f : String) : String :=
  match r.lookup f with
  | some v => v
  | none => ""

/-- The row of values `DictWriter` writes for one record: one value per
configured field, in field-list order. -/
def projectRow (fields : List String) (r : CsvRecord) : List (List Char) :=
  fields.map (fun f => (fieldValue r f).data)

/-- The text written by the `for result in results: writer.writerow(result)`
loop, and whether it raised: rows are written in order until (and
excluding) the first record with a key outside the field list, which
raises `ValueError` and aborts the loop. -/
def writeRows (fields : List String) : List CsvRecord → List Char × Bool
  | [] => ([], false)
  | r :: rs =>
    if hasExtraKey fields r then ([], true)
    else
      let rest := writeRows fields rs
      (formatRow (projectRow fields r) ++ rest.1, rest.2)

/-- `DataProcessor.save_to_csv`: the final content of the (truncated)
output file — header row (`writeheader()` writes the field names as a row)
followed by the data rows — and whether a `ValueError` was raised. -/
def save_to_csv (fields : List String) (results : List CsvRecord) :
    List Char × Bool :=
  let rows := writeRows fields results
  (formatRow (fields.map String.data) ++ rows.1, rows.2)

/-- Reader modes, following CPython `_csv.c`'s parser states for the
default dialect (delimiter `','`, quote char `'"'`, doublequote, no
escape char, non-strict). -/
inductive CsvMode where
  | startRecord
  | afterCR
  | startField
  | inField
  | inQuoted
  | quoteInQuoted
deriving DecidableEq

/-- Reader state: mode, the field and row being accumulated, and the
completed rows. -/
structure CsvState where
  mode : CsvMode
  field : List Char
  row : List (List Char)
  rows : List (List (List Char))
deriving DecidableEq

/-- Transition at the start of a record: `'\r'`/`'\n'` terminate an empty
record; any other character is handled as the start of the first field. -/
def csvStepStart (rows : List (List (List Char))) (c : Char) : CsvState :=
  if c = '\r' then ⟨.afterCR, [], [], rows ++ [[]]⟩
  else if c = '\n' then ⟨.startRecord, [], [], rows ++ [[]]⟩
  else if c = '"' then ⟨.inQuoted, [], [], rows⟩
  else if c = ',' then ⟨.startField, [], [[]], rows⟩
  else ⟨.inField, [c], [], rows⟩

/-- One transition of the CSV reader. -/
def csvStep (s : CsvState) (c : Char) : CsvState :=
  match s.mode with
  | .startRecord => csvStepStart s.rows c
  | .afterCR =>
    if c = '\n' then ⟨.startRecord, [], [], s.rows⟩
    else csvStepStart s.rows c
  | .startField =>
    if c = '"' then ⟨.inQuoted, s.field, s.row, s.rows⟩
    else if c = ',' then ⟨.startField, [], s.row ++ [s.field], s.rows⟩
    else if c = '\r' then ⟨.afterCR, [], [], s.rows ++ [s.row ++ [s.field]]⟩
    else if c = '\n' then ⟨.startRecord, [], [], s.rows ++ [s.row ++ [s.field]]⟩
    else ⟨.inField, s.field ++ [c], s.row, s.rows⟩
  | .inField =>
    if c = ',' then ⟨.startField, [], s.row ++ [s.field], s.rows⟩
    else if c = '\r' then ⟨.afterCR, [], [], s.rows ++ [s.row ++ [s.field]]⟩
    else if c = '\n' then ⟨.startRecord, [], [], s.rows ++ [s.row ++ [s.field]]⟩
    else ⟨.inField, s.field ++ [c], s.row, s.rows⟩
  | .inQuoted =>
    if c = '"' then ⟨.quoteInQuoted, s.field, s.row, s.rows⟩
    else ⟨.inQuoted, s.field ++ [c], s.row, s.rows⟩
  | .quoteInQuoted =>
    if c = '"' then ⟨.inQuoted, s.field ++ ['"'], s.row, s.rows⟩
    else if c = ',' then ⟨.startField, [], s.row ++ [s.field], s.rows⟩
    else if c = '\r' then ⟨.afterCR, [], [], s.rows ++ [s.row ++ [s.field]]⟩
    else if c = '\n' then ⟨.startRecord, [], [], s.rows ++ [s.row ++ [s.field]]⟩
    else ⟨.inField, s.field ++ [c], s.row, s.rows⟩

/-- Run the reader over a character stream. -/
def csvRun (s : CsvState) (cs : List Char) : CsvState := cs.foldl csvStep s

/-- Flush the final (unterminated) record at end of input. -/
def csvFinish (s : CsvState) : List (List (List Char)) :=
  match s.mode with
  | .startRecord => s.rows
  | .afterCR => s.rows
  | _ => s.rows ++ [s.row ++ [s.field]]

/-- `list(csv.reader(f))` over the file content: the list of records, each
a list of field strings. -/
def parseCSV (cs : List Char) : List (List (List Char)) :=
  csvFinish (csvRun ⟨.startRecord, [], [], []⟩ cs)

end VisionParser

namespace VisionParser

/-! ## Theorems for the configuration layer -/

/-- C7: the `max_tokens` setter accepts exactly positive integers and the
`temperature` setter accepts exactly values in `[0.0, 2.0]`; an accepted
write is retained (the stored field equals the written value), and a
rejected write raises the distinct error for that setter and leaves the
previously stored value unchanged. -/
theorem setters_validate (c : OpenAIConfig) (v : Int) (t : Rat) :
    (0 < v → setMaxTokens c v = (⟨c.api_key, c.model, v, c.temperature⟩, none)) ∧
    (v ≤ 0 → setMaxTokens c v = (c, some (.invalidMaxTokens v))) ∧
    (0 ≤ t ∧ t ≤ 2 → setTemperature c t = (⟨c.api_key, c.model, c.max_tokens, t⟩, none)) ∧
    (¬(0 ≤ t ∧ t ≤ 2) → setTemperature c t = (c, some (.invalidTemperature t))) := by
  refine ⟨fun h => ?_, fun h => ?_, fun h => ?_, fun h => ?_⟩
  · simp [setMaxTokens, not_le.mpr h]
  · simp [setMaxTokens, h]
  · simp [setTemperature, h.1, h.2]
  · simp [setTemperature, h]

/-- Witness for C7 at the documented inputs: `500` accepted and retained,
`0` and `-100` rejected without mutation, `1.0` accepted, `-0.1` and `2.1`
rejected without mutation. -/
theorem setters_validate_witness :
    (setMaxTokens ⟨"sk-k", "gpt-4o", 2000, 0⟩ 500
        = (⟨"sk-k", "gpt-4o", 500, 0⟩, none)) ∧
    (setMaxTokens ⟨"sk-k", "gpt-4o", 2000, 0⟩ 0
        = (⟨"sk-k", "gpt-4o", 2000, 0⟩, some (.invalidMaxTokens 0))) ∧
    (setMaxTokens ⟨"sk-k", "gpt-4o", 2000, 0⟩ (-100)
        = (⟨"sk-k", "gpt-4o", 2000, 0⟩, some (.invalidMaxTokens (-100)))) ∧
    (setTemperature ⟨"sk-k", "gpt-4o", 2000, 0⟩ 1
        = (⟨"sk-k", "gpt-4o", 2000, 1⟩, none)) ∧
    (setTemperature ⟨"sk-k", "gpt-4o", 2000, 0⟩ (mkRat (-1) 10)
        = (⟨"sk-k", "gpt-4o", 2000, 0⟩, some (.invalidTemperature (mkRat (-1) 10)))) ∧
    (setTemperature ⟨"sk-k", "gpt-4o", 2000, 0⟩ (mkRat 21 10)
        = (⟨"sk-k", "gpt-4o", 2000, 0⟩, some (.invalidTemperature (mkRat 21 10)))) :=
  ⟨(setters_validate ⟨"sk-k", "gpt-4o", 2000, 0⟩ 500 1).1 (by decide),
   (setters_validate ⟨"sk-k", "gpt-4o", 2000, 0⟩ 0 1).2.1 (by decide),
   (setters_validate ⟨"sk-k", "gpt-4o", 2000, 0⟩ (-100) 1).2.1 (by decide),
   (setters_validate ⟨"sk-k", "gpt-4o", 2000, 0⟩ 500 1).2.2.1 (by decide),
   (setters_validate ⟨"sk-k", "gpt-4o", 2000, 0⟩ 500 (mkRat (-1) 10)).2.2.2 (by decide),
   (setters_validate ⟨"sk-k", "gpt-4o", 2000, 0⟩ 500 (mkRat 21 10)).2.2.2 (by decide)⟩

/-- C8: `get_openai_api_key` raises `OpenAIKeyNotFoundError` when the key is
absent or empty, `OpenAIKeyInvalidError` when it equals the placeholder or
lacks the `"sk-"` prefix, and otherwise returns the key unchanged. -/
theorem api_key_validation (envValue : Option String) :
    (envValue = none ∨ envValue = some "" →
      get_openai_api_key envValue = .error .openAIKeyNotFound) ∧
    (∀ k, envValue = some k → k ≠ "" →
      (k = "your-api-key-here" ∨ ¬(strStartsWith k "sk-") →
        get_openai_api_key envValue = .error .openAIKeyInvalid) ∧
      (k ≠ "your-api-key-here" → strStartsWith k "sk-" →
        get_openai_api_key envValue = .ok k)) := by
  refine ⟨fun h => ?_, fun k hk hne => ⟨fun h => ?_, fun h1 h2 => ?_⟩⟩
  · rcases h with h | h <;> subst h <;> rfl
  · subst hk
    rcases h with h | h
    · subst h; rfl
    · by_cases hp : k = "your-api-key-here" <;>
        simp [get_openai_api_key, hne, hp, h]
  · subst hk
    simp [get_openai_api_key, hne, h1, h2]

/-- Witness for C8 at the documented inputs: empty key, placeholder key,
`"invalid-key"`, and `"sk-test123456"`. -/
theorem api_key_validation_witness :
    (get_openai_api_key none = .error .openAIKeyNotFound) ∧
    (get_openai_api_key (some "") = .error .openAIKeyNotFound) ∧
    (get_openai_api_key (some "your-api-key-here") = .error .openAIKeyInvalid) ∧
    (get_openai_api_key (some "invalid-key") = .error .openAIKeyInvalid) ∧
    (get_openai_api_key (some "sk-test123456") = .ok "sk-test123456") :=
  ⟨(api_key_validation none).1 (Or.inl rfl),
   (api_key_validation (some "")).1 (Or.inr rfl),
   ((api_key_validation (some "your-api-key-here")).2 _ rfl (by decide)).1
     (Or.inl rfl),
   ((api_key_validation (some "invalid-key")).2 _ rfl (by decide)).1
     (Or.inr (by decide)),
   ((api_key_validation (some "sk-test123456")).2 _ rfl (by decide)).2
     (by decide) (by decide)⟩

/-- C9: `success_rate` is `0.0` when `total_images = 0` and
`successful_images / total_images * 100` otherwise. -/
theorem success_rate_formula {α : Type} (r : ProcessingResult α) :
    (r.total_images = 0 → r.success_rate = 0) ∧
    (r.total_images ≠ 0 →
      r.success_rate = (r.successful_images : Rat) * 100 / (r.total_images : Rat)) := by
  constructor
  · intro h
    simp [ProcessingResult.success_rate, h]
  · intro h
    simp [ProcessingResult.success_rate, h]
    ring

/-- Witness for C9: `successful = 8`, `total = 10` gives `80.0`, and
`total = 0` gives `0.0`. -/
theorem success_rate_formula_witness :
    (ProcessingResult.mk (α := Unit) 10 8 ["i1", "i2"] 24 []).success_rate = 80 ∧
    (ProcessingResult.mk (α := Unit) 0 0 [] 0 []).success_rate = 0 :=
  ⟨by
    have h := (success_rate_formula
      (ProcessingResult.mk (α := Unit) 10 8 ["i1", "i2"] 24 [])).2 (by decide)
    rw [h]
    norm_num,
   (success_rate_formula (ProcessingResult.mk (α := Unit) 0 0 [] 0 [])).1 rfl⟩

/-! ## Theorems for the folder scan -/

/-- C5: `get_image_files` raises `ImageFolderNotFoundError` when the folder
does not exist, raises `NoImageFilesError` when no entry has a supported
extension (matched case-insensitively), and otherwise returns exactly the
matching entries sorted in lexicographic path order. -/
theorem get_image_files_spec (folder_path : String) (folderExists : Bool)
    (entries : List String) :
    (folderExists = false →
      get_image_files folder_path folderExists entries
        = .error (.imageFolderNotFound folder_path)) ∧
    (folderExists = true → entries.filter isImageFile = [] →
      get_image_files folder_path folderExists entries
        = .error (.noImageFilesFound folder_path)) ∧
    (folderExists = true → entries.filter isImageFile ≠ [] →
      ∃ l, get_image_files folder_path folderExists entries = .ok l ∧
        l.Perm (entries.filter isImageFile) ∧
        l.Sorted pathLe ∧
        (∀ f, f ∈ l ↔ f ∈ entries ∧ isImageFile f = true)) := by
  refine ⟨fun h => ?_, fun h hf => ?_, fun h hf => ?_⟩
  · subst h; rfl
  · subst h; simp [get_image_files, hf]
  · subst h
    have hne : List.insertionSort pathLe (entries.filter isImageFile) ≠ [] := by
      intro heq
      have hlen := (List.perm_insertionSort pathLe (entries.filter isImageFile)).length_eq
      rw [heq] at hlen
      exact hf (List.eq_nil_of_length_eq_zero hlen.symm)
    have hempty :
        (List.insertionSort pathLe (entries.filter isImageFile)).isEmpty = false := by
      rw [List.isEmpty_eq_false]
      exact hne
    refine ⟨List.insertionSort pathLe (entries.filter isImageFile), ?_, ?_, ?_, ?_⟩
    · simp [get_image_files, hempty]
    · exact List.perm_insertionSort pathLe _
    · exact List.sorted_insertionSort pathLe _
    · intro f
      rw [List.mem_insertionSort, List.mem_filter]

/-- Witness for C5: a missing folder, a folder with no image files, and the
documented example folder containing `test1.png`, `test2.jpg`, `test3.txt`
(given in unsorted scan order). -/
theorem get_image_files_spec_witness :
    (get_image_files "images" false ["images/test1.png"]
      = .error (.imageFolderNotFound "images")) ∧
    (get_image_files "images" true ["images/test3.txt"]
      = .error (.noImageFilesFound "images")) ∧
    (∃ l, get_image_files "images" true
        ["images/test2.jpg", "images/test3.txt", "images/test1.png"] = .ok l ∧
      l.Perm (["images/test2.jpg", "images/test3.txt",
        "images/test1.png"].filter isImageFile) ∧
      l.Sorted pathLe ∧
      (∀ f, f ∈ l ↔
        f ∈ ["images/test2.jpg", "images/test3.txt", "images/test1.png"] ∧
          isImageFile f = true)) :=
  ⟨(get_image_files_spec "images" false ["images/test1.png"]).1 rfl,
   (get_image_files_spec "images" true ["images/test3.txt"]).2.1 rfl (by decide),
   (get_image_files_spec "images" true
     ["images/test2.jpg", "images/test3.txt", "images/test1.png"]).2.2 rfl
     (by decide)⟩

/-- The example from the claim, evaluated directly: the two image files come
back in sorted order and the `.txt` file is excluded. -/
theorem get_image_files_example :
    get_image_files "images" true
        ["images/test2.jpg", "images/test3.txt", "images/test1.png"]
      = .ok ["images/test1.png", "images/test2.jpg"] := rfl

/-! ## Theorems for the processing loop -/

/-- The `failed_images` component of the `process_images` fold: every image
for which the extractor raises or returns zero records contributes its base
name, in list order, regardless of earlier failures. -/
theorem foldl_processStep_failed {α ε : Type}
    (extract : String → Except ε (List α)) :
    ∀ (files : List String) (acc : List α × Nat × List String),
      (files.foldl (processStep extract) acc).2.2
        = acc.2.2 ++ (files.filter (imageFails extract)).map baseName := by
  intro files
  induction files with
  | nil => intro acc; simp
  | cons f fs ih =>
    intro acc
    rw [List.foldl_cons, ih]
    cases hx : extract f with
    | ok records =>
      cases hrec : records.isEmpty with
      | true => simp [processStep, hx, hrec, imageFails, List.filter_cons]
      | false => simp [processStep, hx, hrec, imageFails, List.filter_cons]
    | error e => simp [processStep, hx, imageFails, List.filter_cons]

/-- C1: in `process_images`, an image's base name is appended to
`failed_images` exactly when the extractor raises or returns zero records
for it (the filter characterization, which also shows processing continues
past failures); `successful_images = total_images - len(failed_images)`;
and when the extractor returns records for every image, `failed_images` is
empty and `successful_images = total_images`. -/
theorem process_images_spec {α ε : Type}
    (extract : String → Except ε (List α)) (files : List String) :
    (process_images extract files).total_images = files.length ∧
    (process_images extract files).failed_images
      = (files.filter (imageFails extract)).map baseName ∧
    (process_images extract files).successful_images
      = (process_images extract files).total_images
        - (process_images extract files).failed_images.length ∧
    ((∀ f ∈ files, imageFails extract f = false) →
      (process_images extract files).failed_images = [] ∧
      (process_images extract files).successful_images = files.length) := by
  have hfail : (process_images extract files).failed_images
      = (files.filter (imageFails extract)).map baseName := by
    show (files.foldl (processStep extract)
      (([], 0, []) : List α × Nat × List String)).2.2 = _
    rw [foldl_processStep_failed]
    simp
  refine ⟨rfl, hfail, rfl, fun h => ?_⟩
  have hnil : files.filter (imageFails extract) = [] := by
    rw [List.filter_eq_nil_iff]
    intro f hf
    simp [h f hf]
  constructor
  · rw [hfail, hnil]; rfl
  · show files.length - (files.foldl (processStep extract)
        (([], 0, []) : List α × Nat × List String)).2.2.length = files.length
    have : (files.foldl (processStep extract)
        (([], 0, []) : List α × Nat × List String)).2.2 = [] := by
      have := hfail
      rw [hnil] at this
      exact this
    rw [this]
    rfl

/-- Witness for C1: an extractor that succeeds with records on both images
of a batch yields no failed images and `successful_images = total_images`;
the same spec applied to a mixed batch is exercised through the
characterization hypothesis. -/
theorem process_images_spec_witness :
    (∀ f ∈ ["imgs/a.png", "imgs/b.png"],
      imageFails
        (fun t => if t = "imgs/a.png" then Except.ok [1, 2]
          else Except.ok ([3] : List Nat) : String → Except Unit (List Nat))
        f = false) ∧
    (process_images
        (fun t => if t = "imgs/a.png" then Except.ok [1, 2]
          else Except.ok ([3] : List Nat) : String → Except Unit (List Nat))
        ["imgs/a.png", "imgs/b.png"]).failed_images = [] ∧
    (process_images
        (fun t => if t = "imgs/a.png" then Except.ok [1, 2]
          else Except.ok ([3] : List Nat) : String → Except Unit (List Nat))
        ["imgs/a.png", "imgs/b.png"]).successful_images = 2 :=
  ⟨by decide,
   ((process_images_spec
      (fun t => if t = "imgs/a.png" then Except.ok [1, 2]
        else Except.ok ([3] : List Nat) : String → Except Unit (List Nat))
      ["imgs/a.png", "imgs/b.png"]).2.2.2 (by decide)).1,
   ((process_images_spec
      (fun t => if t = "imgs/a.png" then Except.ok [1, 2]
        else Except.ok ([3] : List Nat) : String → Except Unit (List Nat))
      ["imgs/a.png", "imgs/b.png"]).2.2.2 (by decide)).2⟩

/-! ## Lemmas about whitespace stripping -/

/-- `dropWhile` is idempotent. -/
theorem dropWhile_idem {α : Type} (p : α → Bool) (l : List α) :
    (l.dropWhile p).dropWhile p = l.dropWhile p := by
  induction l with
  | nil => rfl
  | cons a t ih =>
    by_cases h : p a = true
    · simp [List.dropWhile_cons, h, ih]
    · simp [List.dropWhile_cons, h]

/-- The head of a `dropWhile` result fails the predicate. -/
theorem head_dropWhile_false {α : Type} (p : α → Bool) :
    ∀ (l : List α) (a : α) (t : List α), l.dropWhile p = a :: t → p a = false := by
  intro l
  induction l with
  | nil => intro a t h; cases h
  | cons x xs ih =>
    intro a t h
    by_cases hx : p x = true
    · rw [List.dropWhile_cons_of_pos hx] at h
      exact ih a t h
    · rw [List.dropWhile_cons_of_neg hx] at h
      cases h
      simpa using hx

/-- Stripping absorbs a leading whitespace character. -/
theorem pyStrip_cons_space (c : Char) (h : pyIsSpace c = true) (t : List Char) :
    pyStrip (c :: t) = pyStrip t := by
  simp [pyStrip, List.dropWhile_cons, h]

/-- Stripping absorbs a trailing whitespace character. -/
theorem pyStrip_append_space (c : Char) (h : pyIsSpace c = true) (t : List Char) :
    pyStrip (t ++ [c]) = pyStrip t := by
  unfold pyStrip
  rw [List.dropWhile_append]
  by_cases he : (t.dropWhile pyIsSpace).isEmpty = true
  · rw [List.isEmpty_iff] at he
    simp [he, List.dropWhile_cons, h]
  · simp only [he, Bool.false_eq_true, if_false]
    simp [List.dropWhile_cons, h]

/-- A list that starts and ends with a non-whitespace character strips to
itself. -/
theorem pyStrip_eq_self_sandwich (a b : Char) (x : List Char)
    (ha : pyIsSpace a = false) (hb : pyIsSpace b = false) :
    pyStrip (a :: (x ++ [b])) = a :: (x ++ [b]) := by
  unfold pyStrip
  rw [List.dropWhile_cons_of_neg (by simp [ha])]
  have hr : (a :: (x ++ [b])).reverse = b :: (x.reverse ++ [a]) := by simp
  rw [hr, List.dropWhile_cons_of_neg (by simp [hb])]
  simp

/-- Stripping is idempotent. -/
theorem pyStrip_idem (l : List Char) : pyStrip (pyStrip l) = pyStrip l := by
  show ((((pyStrip l).dropWhile pyIsSpace).reverse).dropWhile pyIsSpace).reverse
      = pyStrip l
  have h1 : (pyStrip l).dropWhile pyIsSpace = pyStrip l := by
    cases hA : l.dropWhile pyIsSpace with
    | nil => simp [pyStrip, hA]
    | cons a t =>
      have ha : pyIsSpace a = false := head_dropWhile_false pyIsSpace l a t hA
      by_cases hc : (t.reverse.dropWhile pyIsSpace).isEmpty = true
      · rw [List.isEmpty_iff] at hc
        simp [pyStrip, hA, List.dropWhile_append, hc, List.dropWhile_cons, ha]
      · simp [pyStrip, hA, List.dropWhile_append, hc, List.dropWhile_cons, ha]
  rw [h1]
  have h2 : (pyStrip l).reverse.dropWhile pyIsSpace = (pyStrip l).reverse := by
    unfold pyStrip
    rw [List.reverse_reverse]
    exact dropWhile_idem _ _
  rw [h2, List.reverse_reverse]

/-- A string starting with the 7-character fence also starts with the
3-character fence. -/
theorem starts_json_starts_fence (s : List Char)
    (h : listStartsWith "```json".data s = true) :
    listStartsWith "```".data s = true := by
  match s with
  | [] => exact absurd h (by decide)
  | [c1] =>
    rw [show "```json".data = ['`', '`', '`', 'j', 's', 'o', 'n'] from rfl] at h
    simp [listStartsWith] at h
  | [c1, c2] =>
    rw [show "```json".data = ['`', '`', '`', 'j', 's', 'o', 'n'] from rfl] at h
    simp [listStartsWith] at h
  | c1 :: c2 :: c3 :: rest =>
    rw [show "```json".data = ['`', '`', '`', 'j', 's', 'o', 'n'] from rfl] at h
    rw [show "```".data = ['`', '`', '`'] from rfl]
    simp [listStartsWith] at h ⊢
    exact ⟨h.1, h.2.1, h.2.2.1⟩

/-! ## Theorems for the code-fence cleanup -/

/-- C6: a response text wrapped in a ```` ```json ```` (or bare ```` ``` ````)
fence with surrounding newlines is cleaned to the same text as the bare
response (its stripped form), so the extractor parses both to exactly the
same records.  The hypotheses say the bare text does not itself look
fenced. -/
theorem clean_content_fence (t : List Char)
    (h1 : listStartsWith "```".data (pyStrip t) = false)
    (h2 : listEndsWith "```".data (pyStrip t) = false) :
    cleanContent (fenceWrapJson t) = pyStrip t ∧
    cleanContent (fenceWrapPlain t) = pyStrip t ∧
    cleanContent t = pyStrip t ∧
    (∀ (encode : String → Except String String)
       (loads : List Char → Except String JValue) (p b : String),
      encode p = .ok b →
      extract_all_info encode (fun _ => .ok (fenceWrapJson t)) loads p
        = extract_all_info encode (fun _ => .ok t) loads p) := by
  have hJ : cleanContent (fenceWrapJson t) = pyStrip t := by
    simp only [cleanContent, fenceWrapJson]
    have s1 : pyStrip (['`', '`', '`', 'j', 's', 'o', 'n', '\n'] ++ t
          ++ ['\n', '`', '`', '`'])
        = ['`', '`', '`', 'j', 's', 'o', 'n', '\n'] ++ t ++ ['\n', '`', '`', '`'] := by
      have hsh : (['`', '`', '`', 'j', 's', 'o', 'n', '\n'] : List Char) ++ t
            ++ ['\n', '`', '`', '`']
          = '`' :: ((['`', '`', 'j', 's', 'o', 'n', '\n'] ++ t ++ ['\n', '`', '`'])
            ++ ['`']) := by
        simp
      rw [hsh]
      exact pyStrip_eq_self_sandwich '`' '`' _ rfl rfl
    rw [s1]
    have s2 : listStartsWith ['`', '`', '`', 'j', 's', 'o', 'n']
        (['`', '`', '`', 'j', 's', 'o', 'n', '\n'] ++ t ++ ['\n', '`', '`', '`'])
        = true := by
      simp [listStartsWith]
    rw [s2, if_pos rfl]
    have s3 : (['`', '`', '`', 'j', 's', 'o', 'n', '\n'] ++ t
          ++ ['\n', '`', '`', '`']).drop 7
        = '\n' :: (t ++ ['\n', '`', '`', '`']) := by simp
    rw [s3]
    have s4 : listStartsWith ['`', '`', '`'] ('\n' :: (t ++ ['\n', '`', '`', '`']))
        = false := by
      simp [listStartsWith, show ('`' == '\n') = false from rfl]
    rw [s4, if_neg Bool.false_ne_true]
    have s5 : listEndsWith ['`', '`', '`'] ('\n' :: (t ++ ['\n', '`', '`', '`']))
        = true := by
      unfold listEndsWith
      simp [listStartsWith]
    rw [s5, if_pos rfl]
    have s6 : ('\n' :: (t ++ ['\n', '`', '`', '`'])).take
          (('\n' :: (t ++ ['\n', '`', '`', '`'])).length - 3)
        = '\n' :: (t ++ ['\n']) := by
      have hsh2 : '\n' :: (t ++ ['\n', '`', '`', '`'])
          = ('\n' :: (t ++ ['\n'])) ++ ['`', '`', '`'] := by simp
      rw [hsh2]
      rw [show (('\n' :: (t ++ ['\n'])) ++ ['`', '`', '`']).length - 3
          = ('\n' :: (t ++ ['\n'])).length from by simp]
      exact List.take_left _ _
    rw [s6, pyStrip_cons_space '\n' rfl]
    exact pyStrip_append_space '\n' rfl t
  have hP : cleanContent (fenceWrapPlain t) = pyStrip t := by
    simp only [cleanContent, fenceWrapPlain]
    have s1 : pyStrip (['`', '`', '`', '\n'] ++ t ++ ['\n', '`', '`', '`'])
        = ['`', '`', '`', '\n'] ++ t ++ ['\n', '`', '`', '`'] := by
      have hsh : (['`', '`', '`', '\n'] : List Char) ++ t ++ ['\n', '`', '`', '`']
          = '`' :: ((['`', '`', '\n'] ++ t ++ ['\n', '`', '`']) ++ ['`']) := by
        simp
      rw [hsh]
      exact pyStrip_eq_self_sandwich '`' '`' _ rfl rfl
    rw [s1]
    have s2 : listStartsWith ['`', '`', '`', 'j', 's', 'o', 'n']
        (['`', '`', '`', '\n'] ++ t ++ ['\n', '`', '`', '`']) = false := by
      simp [listStartsWith, show ('j' == '\n') = false from rfl]
    rw [s2, if_neg Bool.false_ne_true]
    have s3 : listStartsWith ['`', '`', '`']
        (['`', '`', '`', '\n'] ++ t ++ ['\n', '`', '`', '`']) = true := by
      simp [listStartsWith]
    rw [s3, if_pos rfl]
    have s4 : (['`', '`', '`', '\n'] ++ t ++ ['\n', '`', '`', '`']).drop 3
        = '\n' :: (t ++ ['\n', '`', '`', '`']) := by simp
    rw [s4]
    have s5 : listEndsWith ['`', '`', '`'] ('\n' :: (t ++ ['\n', '`', '`', '`']))
        = true := by
      unfold listEndsWith
      simp [listStartsWith]
    rw [s5, if_pos rfl]
    have s6 : ('\n' :: (t ++ ['\n', '`', '`', '`'])).take
          (('\n' :: (t ++ ['\n', '`', '`', '`'])).length - 3)
        = '\n' :: (t ++ ['\n']) := by
      have hsh2 : '\n' :: (t ++ ['\n', '`', '`', '`'])
          = ('\n' :: (t ++ ['\n'])) ++ ['`', '`', '`'] := by simp
      rw [hsh2]
      rw [show (('\n' :: (t ++ ['\n'])) ++ ['`', '`', '`']).length - 3
          = ('\n' :: (t ++ ['\n'])).length from by simp]
      exact List.take_left _ _
    rw [s6, pyStrip_cons_space '\n' rfl]
    exact pyStrip_append_space '\n' rfl t
  have hB : cleanContent t = pyStrip t := by
    simp only [cleanContent]
    have h1l : listStartsWith ['`', '`', '`'] (pyStrip t) = false := h1
    have h2l : listEndsWith ['`', '`', '`'] (pyStrip t) = false := h2
    have n7 : listStartsWith ['`', '`', '`', 'j', 's', 'o', 'n'] (pyStrip t)
        = false := by
      rcases Bool.eq_false_or_eq_true
        (listStartsWith ['`', '`', '`', 'j', 's', 'o', 'n'] (pyStrip t)) with h | h
      · exact absurd (starts_json_starts_fence _ h) (by simp [h1l])
      · exact h
    rw [n7, if_neg Bool.false_ne_true, h1l, if_neg Bool.false_ne_true, h2l,
      if_neg Bool.false_ne_true]
    exact pyStrip_idem t
  refine ⟨hJ, hP, hB, ?_⟩
  intro encode loads p b hb
  simp only [extract_all_info, hb, hJ, hB]

/-- Witness for C6 at the documented example: the array
`[{"email":"a@b.com"}]` wrapped in a ```` ```json ```` fence cleans to the
bare array text. -/
theorem clean_content_fence_witness :
    (listStartsWith "```".data
        (pyStrip "[\x7b\"email\":\"a@b.com\"\x7d]".data) = false) ∧
    (listEndsWith "```".data
        (pyStrip "[\x7b\"email\":\"a@b.com\"\x7d]".data) = false) ∧
    cleanContent (fenceWrapJson "[\x7b\"email\":\"a@b.com\"\x7d]".data)
      = pyStrip "[\x7b\"email\":\"a@b.com\"\x7d]".data ∧
    cleanContent "[\x7b\"email\":\"a@b.com\"\x7d]".data
      = pyStrip "[\x7b\"email\":\"a@b.com\"\x7d]".data :=
  ⟨by decide, by decide,
   (clean_content_fence "[\x7b\"email\":\"a@b.com\"\x7d]".data
     (by decide) (by decide)).1,
   (clean_content_fence "[\x7b\"email\":\"a@b.com\"\x7d]".data
     (by decide) (by decide)).2.2.1⟩

/-! ## Theorems for the extractor error taxonomy and record shape -/

/-- Appending the empty string is the identity. -/
theorem string_append_empty (s : String) : s ++ "" = s := by
  cases s with
  | mk data =>
    show String.mk (data ++ []) = String.mk data
    rw [List.append_nil]

/-- C2: `extract_all_info` raises `OpenAIAPIError` with the image path in
its message exactly when JSON-parsing of the cleaned response text fails;
every other failure (encoding, API round-trip, malformed response
structure) raises `ImageProcessingError` carrying the image path and the
wrapped cause.  The two kinds are distinct constructors of `ExtractError`,
hence distinguishable by class. -/
theorem extract_error_taxonomy
    (encode : String → Except String String)
    (api : String → Except String (List Char))
    (loads : List Char → Except String JValue)
    (p : String) :
    ((∃ m c, extract_all_info encode api loads p
        = .error (.openAIAPIError m c) ∧ strContainsSub m p)
      ↔ (∃ b raw, encode p = .ok b ∧ api b = .ok raw ∧
          ∃ e, loads (cleanContent raw) = .error e)) ∧
    (∀ err, extract_all_info encode api loads p = .error err →
      (∀ m c, err ≠ .openAIAPIError m c) →
      ∃ c, err = .imageProcessingError p c) := by
  cases hE : encode p with
  | error e =>
    have hx : extract_all_info encode api loads p
        = .error (.imageProcessingError p e) := by
      simp only [extract_all_info, hE]
    rw [hx]
    refine ⟨⟨?_, ?_⟩, ?_⟩
    · rintro ⟨m, c, heq, _⟩
      simp at heq
    · rintro ⟨b, raw, hb, _⟩
      simp at hb
    · intro err herr _
      exact ⟨e, (Except.error.inj herr).symm⟩
  | ok b =>
    cases hA : api b with
    | error e =>
      have hx : extract_all_info encode api loads p
          = .error (.imageProcessingError p e) := by
        simp only [extract_all_info, hE, hA]
      rw [hx]
      refine ⟨⟨?_, ?_⟩, ?_⟩
      · rintro ⟨m, c, heq, _⟩
        simp at heq
      · rintro ⟨b2, raw, hb, hraw, _⟩
        cases Except.ok.inj hb
        rw [hA] at hraw
        simp at hraw
      · intro err herr _
        exact ⟨e, (Except.error.inj herr).symm⟩
    | ok raw =>
      cases hL : loads (cleanContent raw) with
      | error e =>
        have hx : extract_all_info encode api loads p
            = .error (.openAIAPIError ("JSON parse error: " ++ p) e) := by
          simp only [extract_all_info, hE, hA, hL]
        rw [hx]
        refine ⟨⟨?_, ?_⟩, ?_⟩
        · intro _
          exact ⟨b, raw, rfl, hA, e, hL⟩
        · intro _
          refine ⟨"JSON parse error: " ++ p, e, rfl, "JSON parse error: ", "", ?_⟩
          rw [string_append_empty]
        · intro err herr hne
          exact absurd (Except.error.inj herr).symm (hne _ _)
      | ok parsed =>
        cases hI : pyIter parsed with
        | error e =>
          have hx : extract_all_info encode api loads p
              = .error (.imageProcessingError p e) := by
            simp only [extract_all_info, hE, hA, hL, hI]
          rw [hx]
          refine ⟨⟨?_, ?_⟩, ?_⟩
          · rintro ⟨m, c, heq, _⟩
            simp at heq
          · rintro ⟨b2, raw2, hb, hraw, e2, hl2⟩
            cases Except.ok.inj hb
            rw [hA] at hraw
            cases Except.ok.inj hraw
            rw [hL] at hl2
            simp at hl2
          · intro err herr _
            exact ⟨e, (Except.error.inj herr).symm⟩
        | ok data_list =>
          cases hM : data_list.mapM (formatRecord p) with
          | error e =>
            have hx : extract_all_info encode api loads p
                = .error (.imageProcessingError p e) := by
              simp only [extract_all_info, hE, hA, hL, hI, hM]
            rw [hx]
            refine ⟨⟨?_, ?_⟩, ?_⟩
            · rintro ⟨m, c, heq, _⟩
              simp at heq
            · rintro ⟨b2, raw2, hb, hraw, e2, hl2⟩
              cases Except.ok.inj hb
              rw [hA] at hraw
              cases Except.ok.inj hraw
              rw [hL] at hl2
              simp at hl2
            · intro err herr _
              exact ⟨e, (Except.error.inj herr).symm⟩
          | ok results =>
            have hx : extract_all_info encode api loads p = .ok results := by
              simp only [extract_all_info, hE, hA, hL, hI, hM]
            rw [hx]
            refine ⟨⟨?_, ?_⟩, ?_⟩
            · rintro ⟨m, c, heq, _⟩
              simp at heq
            · rintro ⟨b2, raw2, hb, hraw, e2, hl2⟩
              cases Except.ok.inj hb
              rw [hA] at hraw
              cases Except.ok.inj hraw
              rw [hL] at hl2
              simp at hl2
            · intro err herr _
              simp at herr

/-- Witness for C2: an encoder failure surfaces as `ImageProcessingError`
with the path, and a JSON-parse failure surfaces as `OpenAIAPIError` whose
message contains the path. -/
theorem extract_error_taxonomy_witness :
    (∃ c, extract_all_info (fun _ => .error "File read error")
        (fun _ => .ok "[]".data) (fun _ => .ok .jnull) "imgs/test.png"
      = .error (.imageProcessingError "imgs/test.png" c)) ∧
    (∃ m c, extract_all_info (fun _ => .ok "b64")
        (fun _ => .ok "Invalid JSON".data)
        (fun _ => .error "Expecting value") "imgs/test.png"
      = .error (.openAIAPIError m c) ∧ strContainsSub m "imgs/test.png") := by
  constructor
  · obtain ⟨c, hc⟩ :=
      (extract_error_taxonomy (fun _ => .error "File read error")
        (fun _ => .ok "[]".data) (fun _ => .ok .jnull) "imgs/test.png").2
        (.imageProcessingError "imgs/test.png" "File read error") rfl
        (fun m c h => ExtractError.noConfusion h)
    exact ⟨c, by rw [show extract_all_info (fun _ => .error "File read error")
        (fun _ => .ok "[]".data) (fun _ => .ok .jnull) "imgs/test.png"
      = .error (.imageProcessingError "imgs/test.png" "File read error") from rfl, hc]⟩
  · exact (extract_error_taxonomy (fun _ => .ok "b64")
      (fun _ => .ok "Invalid JSON".data)
      (fun _ => .error "Expecting value") "imgs/test.png").1.mpr
      ⟨"b64", "Invalid JSON".data, rfl, rfl, "Expecting value", rfl⟩

/-- `mapM` of the record formatter over a list of parsed JSON objects. -/
theorem mapM_formatRecord (p : String) :
    ∀ objs : List (List (String × JValue)),
      (objs.map JValue.jobj).mapM (formatRecord p)
        = .ok (objs.map (fun entries =>
            [("filename", JValue.jstr (baseName p)),
             ("email", jsonFieldOrEmpty entries "email"),
             ("firstname", jsonFieldOrEmpty entries "firstname"),
             ("name", jsonFieldOrEmpty entries "name")])) := by
  intro objs
  induction objs with
  | nil => rfl
  | cons o os ih =>
    have hfr : formatRecord p (JValue.jobj o)
        = Except.ok [("filename", JValue.jstr (baseName p)),
            ("email", jsonFieldOrEmpty o "email"),
            ("firstname", jsonFieldOrEmpty o "firstname"),
            ("name", jsonFieldOrEmpty o "name")] := rfl
    rw [List.map_cons, List.mapM_cons, hfr, ih]
    rfl

/-- C4: when the cleaned response parses as a JSON array of objects,
`extract_all_info` emits one record per object, in order; `"filename"` is
always the base name of the source path (even when the object carries its
own `"filename"` key), the other three fields are copied with `""` as
default, and each record's keys are exactly
`filename, email, firstname, name`. -/
theorem extract_record_shape
    (encode : String → Except String String)
    (api : String → Except String (List Char))
    (loads : List Char → Except String JValue)
    (p b : String) (raw : List Char)
    (objs : List (List (String × JValue)))
    (h1 : encode p = .ok b) (h2 : api b = .ok raw)
    (h3 : loads (cleanContent raw) = .ok (.jarr (objs.map JValue.jobj))) :
    extract_all_info encode api loads p
      = .ok (objs.map (fun entries =>
          [("filename", JValue.jstr (baseName p)),
           ("email", jsonFieldOrEmpty entries "email"),
           ("firstname", jsonFieldOrEmpty entries "firstname"),
           ("name", jsonFieldOrEmpty entries "name")])) ∧
    (∀ results, extract_all_info encode api loads p = .ok results →
      results.length = objs.length ∧
      ∀ rec ∈ results,
        rec.map Prod.fst = ["filename", "email", "firstname", "name"] ∧
        rec.lookup "filename" = some (.jstr (baseName p))) := by
  have hx : extract_all_info encode api loads p
      = .ok (objs.map (fun entries =>
          [("filename", JValue.jstr (baseName p)),
           ("email", jsonFieldOrEmpty entries "email"),
           ("firstname", jsonFieldOrEmpty entries "firstname"),
           ("name", jsonFieldOrEmpty entries "name")])) := by
    simp only [extract_all_info, h1, h2, h3, pyIter, mapM_formatRecord p objs]
  refine ⟨hx, ?_⟩
  intro results hres
  rw [hx] at hres
  have hres2 := Except.ok.inj hres
  subst hres2
  constructor
  · rw [List.length_map]
  · intro rec hrec
    rw [List.mem_map] at hrec
    obtain ⟨entries, _, hform⟩ := hrec
    subst hform
    exact ⟨rfl, rfl⟩

/-- Witness for C4: a parsed object that tries to smuggle its own
`"filename"` field still yields a record whose `filename` is the base name
of the source path; missing `firstname`/`name` default to `""`. -/
theorem extract_record_shape_witness :
    extract_all_info (fun _ => .ok "b64")
        (fun _ => .ok "[]".data)
        (fun _ => .ok (.jarr [JValue.jobj
          [("filename", JValue.jstr "evil.png"),
           ("email", JValue.jstr "a@b.com")]]))
        "imgs/row.png"
      = .ok [[("filename", JValue.jstr "row.png"),
          ("email", JValue.jstr "a@b.com"),
          ("firstname", JValue.jstr ""),
          ("name", JValue.jstr "")]] := by
  have h := (extract_record_shape (fun _ => .ok "b64") (fun _ => .ok "[]".data)
    (fun _ => .ok (.jarr [JValue.jobj
      [("filename", JValue.jstr "evil.png"),
       ("email", JValue.jstr "a@b.com")]]))
    "imgs/row.png" "b64" "[]".data
    [[("filename", JValue.jstr "evil.png"), ("email", JValue.jstr "a@b.com")]]
    rfl rfl rfl).1
  exact h

/-! ## Lemmas about the CSV reader on writer output -/

/-- Unfolding one reader step. -/
theorem csvRun_cons (s : CsvState) (c : Char) (cs : List Char) :
    csvRun s (c :: cs) = csvRun (csvStep s c) cs := rfl

/-- Splitting a reader run at an append. -/
theorem csvRun_append (s : CsvState) (a b : List Char) :
    csvRun s (a ++ b) = csvRun (csvRun s a) b := by
  simp [csvRun, List.foldl_append]

/-- Unpacking `needsQuote` on a cons cell. -/
theorem needsQuote_cons_false {c : Char} {cs : List Char}
    (h : needsQuote (c :: cs) = false) :
    c ≠ ',' ∧ c ≠ '"' ∧ c ≠ '\r' ∧ c ≠ '\n' ∧ needsQuote cs = false := by
  simp only [needsQuote, List.any_cons, Bool.or_eq_false_iff,
    decide_eq_false_iff_not] at h
  exact ⟨h.1.1.1.1, h.1.1.1.2, h.1.1.2, h.1.2, h.2⟩

/-- Reading an escaped field body plus the closing quote accumulates the
unescaped text and ends in `quoteInQuoted`. -/
theorem run_escapeQuotes (v : List Char) :
    ∀ (f : List Char) (row : List (List Char)) (rows : List (List (List Char))),
      csvRun ⟨.inQuoted, f, row, rows⟩ (escapeQuotes v ++ ['"'])
        = ⟨.quoteInQuoted, f ++ v, row, rows⟩ := by
  induction v with
  | nil =>
    intro f row rows
    simp [escapeQuotes, csvRun, csvStep]
  | cons c cs ih =>
    intro f row rows
    by_cases hc : c = '"'
    · subst hc
      have he : escapeQuotes ('"' :: cs) ++ ['"']
          = '"' :: ('"' :: (escapeQuotes cs ++ ['"'])) := by
        simp [escapeQuotes]
      rw [he, csvRun_cons, csvRun_cons]
      have h1 : csvStep (csvStep ⟨.inQuoted, f, row, rows⟩ '"') '"'
          = ⟨.inQuoted, f ++ ['"'], row, rows⟩ := by
        simp [csvStep]
      rw [h1, ih]
      simp
    · have he : escapeQuotes (c :: cs) ++ ['"'] = c :: (escapeQuotes cs ++ ['"']) := by
        simp [escapeQuotes, hc]
      rw [he, csvRun_cons]
      have h1 : csvStep ⟨.inQuoted, f, row, rows⟩ c = ⟨.inQuoted, f ++ [c], row, rows⟩ := by
        simp [csvStep, hc]
      rw [h1, ih]
      simp

/-- Reading an unquoted field body (no special characters) accumulates it
in `inField`. -/
theorem run_unquoted (v : List Char) :
    ∀ (_ : needsQuote v = false) (f : List Char) (row : List (List Char))
      (rows : List (List (List Char))),
      csvRun ⟨.inField, f, row, rows⟩ v = ⟨.inField, f ++ v, row, rows⟩ := by
  induction v with
  | nil => intro _ f row rows; simp [csvRun]
  | cons c cs ih =>
    intro hv f row rows
    obtain ⟨h1, h2, h3, h4, htail⟩ := needsQuote_cons_false hv
    rw [csvRun_cons]
    have hstep : csvStep ⟨.inField, f, row, rows⟩ c = ⟨.inField, f ++ [c], row, rows⟩ := by
      simp [csvStep, h1, h2, h3, h4]
    rw [hstep, ih htail]
    simp

/-- Reading one rendered field from `startField` accumulates exactly the
field value and ends in one of the three pre-separator modes. -/
theorem run_formatField (n : Nat) (v : List Char) (row : List (List Char))
    (rows : List (List (List Char))) :
    ∃ m, csvRun ⟨.startField, [], row, rows⟩ (formatField n v) = ⟨m, v, row, rows⟩ ∧
      (m = CsvMode.startField ∨ m = CsvMode.inField ∨ m = CsvMode.quoteInQuoted) := by
  by_cases hq : (needsQuote v || (n == 1 && v.isEmpty)) = true
  · refine ⟨.quoteInQuoted, ?_, Or.inr (Or.inr rfl)⟩
    rw [show formatField n v = '"' :: (escapeQuotes v ++ ['"']) from by
      simp [formatField, hq]]
    rw [csvRun_cons]
    have h1 : csvStep ⟨.startField, [], row, rows⟩ '"' = ⟨.inQuoted, [], row, rows⟩ := by
      simp [csvStep]
    rw [h1, run_escapeQuotes]
    simp
  · rw [Bool.or_eq_true, not_or] at hq
    obtain ⟨hq1, hq2⟩ := hq
    have hnq : needsQuote v = false := by
      cases hnv : needsQuote v
      · rfl
      · exact absurd hnv hq1
    cases v with
    | nil =>
      refine ⟨.startField, ?_, Or.inl rfl⟩
      have hn1 : ¬n = 1 := by
        intro h
        subst h
        exact hq2 (by simp)
      rw [show formatField n [] = [] from by simp [formatField, needsQuote, hn1]]
      simp [csvRun]
    | cons c cs =>
      refine ⟨.inField, ?_, Or.inr (Or.inl rfl)⟩
      rw [show formatField n (c :: cs) = c :: cs from by simp [formatField, hnq, hq2]]
      obtain ⟨h1, h2, h3, h4, htail⟩ := needsQuote_cons_false hnq
      rw [csvRun_cons]
      have hstep : csvStep ⟨.startField, [], row, rows⟩ c = ⟨.inField, [c], row, rows⟩ := by
        simp [csvStep, h1, h2, h3, h4]
      rw [hstep, run_unquoted cs htail [c] row rows]
      rfl

/-- From any of the three pre-separator modes, a delimiter closes the
field, and a CR closes field and record. -/
theorem csvStep_sep (m : CsvMode)
    (hm : m = CsvMode.startField ∨ m = CsvMode.inField ∨ m = CsvMode.quoteInQuoted)
    (f : List Char) (row : List (List Char)) (rows : List (List (List Char))) :
    csvStep ⟨m, f, row, rows⟩ ',' = ⟨.startField, [], row ++ [f], rows⟩ ∧
    csvStep ⟨m, f, row, rows⟩ '\r' = ⟨.afterCR, [], [], rows ++ [row ++ [f]]⟩ := by
  rcases hm with rfl | rfl | rfl <;> exact ⟨by simp [csvStep], by simp [csvStep]⟩

/-- Reading a comma-joined rendered field list plus the CRLF terminator
from `startField` appends the whole row and returns to `startRecord`. -/
theorem run_fieldsRow (n : Nat) :
    ∀ (vals : List (List Char)), vals ≠ [] →
      ∀ (row : List (List Char)) (rows : List (List (List Char))),
        csvRun ⟨.startField, [], row, rows⟩
          (joinComma (vals.map (formatField n)) ++ ['\r', '\n'])
          = ⟨.startRecord, [], [], rows ++ [row ++ vals]⟩ := by
  intro vals
  induction vals with
  | nil => intro h; exact absurd rfl h
  | cons v vs ih =>
    intro _ row rows
    cases vs with
    | nil =>
      rw [show joinComma ([v].map (formatField n)) = formatField n v from by
        simp [joinComma]]
      rw [csvRun_append]
      obtain ⟨m, hrun, hm⟩ := run_formatField n v row rows
      rw [hrun, show (['\r', '\n'] : List Char) = '\r' :: ['\n'] from rfl, csvRun_cons]
      rw [(csvStep_sep m hm v row rows).2]
      simp [csvRun, csvStep]
    | cons v2 vs2 =>
      rw [show joinComma ((v :: v2 :: vs2).map (formatField n))
          = formatField n v ++ ([','] ++ joinComma ((v2 :: vs2).map (formatField n)))
          from by simp [joinComma]]
      rw [show (formatField n v
            ++ ([','] ++ joinComma ((v2 :: vs2).map (formatField n)))) ++ ['\r', '\n']
          = formatField n v
            ++ (',' :: (joinComma ((v2 :: vs2).map (formatField n)) ++ ['\r', '\n']))
          from by simp]
      rw [csvRun_append]
      obtain ⟨m, hrun, hm⟩ := run_formatField n v row rows
      rw [hrun, csvRun_cons, (csvStep_sep m hm v row rows).1]
      rw [ih (by simp) (row ++ [v]) rows]
      simp

/-- A rendered field never starts with a line terminator. -/
theorem formatField_head (n : Nat) (v : List Char) (c : Char) (cs : List Char)
    (h : formatField n v = c :: cs) : c ≠ '\r' ∧ c ≠ '\n' := by
  by_cases hq : (needsQuote v || (n == 1 && v.isEmpty)) = true
  · rw [show formatField n v = '"' :: (escapeQuotes v ++ ['"']) from by
      simp [formatField, hq]] at h
    cases h
    exact ⟨by decide, by decide⟩
  · have hfv : formatField n v = v := by simp [formatField, hq]
    rw [Bool.or_eq_true, not_or] at hq
    have hnq : needsQuote v = false := by
      cases hnv : needsQuote v
      · rfl
      · exact absurd hnv hq.1
    rw [hfv] at h
    subst h
    obtain ⟨_, _, h3, h4, _⟩ := needsQuote_cons_false hnq
    exact ⟨h3, h4⟩

/-- On a character that does not end the record, the `startRecord` and
`startField` modes (with nothing accumulated) transition identically. -/
theorem csvStep_start_eq (c : Char) (hr : c ≠ '\r') (hn : c ≠ '\n')
    (rows : List (List (List Char))) :
    csvStep ⟨.startRecord, [], [], rows⟩ c = csvStep ⟨.startField, [], [], rows⟩ c := by
  by_cases h1 : c = '"'
  · subst h1; simp [csvStep, csvStepStart]
  · by_cases h2 : c = ','
    · subst h2; simp [csvStep, csvStepStart]
    · simp [csvStep, csvStepStart, h1, h2, hr, hn]

/-- A rendered row read from `startRecord` appends exactly its field
values as one record and returns to `startRecord`. -/
theorem run_formatRow (vals : List (List Char)) (rows : List (List (List Char))) :
    csvRun ⟨.startRecord, [], [], rows⟩ (formatRow vals)
      = ⟨.startRecord, [], [], rows ++ [vals]⟩ := by
  cases vals with
  | nil =>
    rw [show formatRow [] = ['\r', '\n'] from rfl]
    simp [csvRun, csvStep, csvStepStart]
  | cons v vs =>
    have hstream : ∃ c cs,
        joinComma (((v :: vs).map (formatField (v :: vs).length))) ++ ['\r', '\n']
          = c :: cs ∧ c ≠ '\r' ∧ c ≠ '\n' := by
      cases hfv : formatField (v :: vs).length v with
      | nil =>
        cases vs with
        | nil =>
          exfalso
          cases v with
          | nil => exact absurd hfv (by decide)
          | cons c vtail =>
            by_cases hnv : needsQuote (c :: vtail) = true
            · rw [show formatField [c :: vtail].length (c :: vtail)
                  = '"' :: (escapeQuotes (c :: vtail) ++ ['"']) from by
                simp [formatField, hnv]] at hfv
              cases hfv
            · have hfv2 : formatField [c :: vtail].length (c :: vtail) = c :: vtail := by
                simp [formatField, hnv]
              rw [hfv2] at hfv
              cases hfv
        | cons v2 vs2 =>
          refine ⟨',', joinComma (((v2 :: vs2).map
            (formatField (v :: v2 :: vs2).length))) ++ ['\r', '\n'], ?_, by decide, by decide⟩
          rw [show joinComma ((v :: v2 :: vs2).map (formatField (v :: v2 :: vs2).length))
              = formatField (v :: v2 :: vs2).length v ++ ([','] ++ joinComma
                ((v2 :: vs2).map (formatField (v :: v2 :: vs2).length))) from by
            simp [joinComma]]
          rw [hfv]
          simp
      | cons c cs' =>
        have hc := formatField_head (v :: vs).length v c cs' hfv
        cases vs with
        | nil =>
          refine ⟨c, cs' ++ ['\r', '\n'], ?_, hc.1, hc.2⟩
          rw [show joinComma ([v].map (formatField [v].length))
              = formatField [v].length v from by simp [joinComma]]
          rw [hfv]
          rfl
        | cons v2 vs2 =>
          refine ⟨c, cs' ++ (',' :: (joinComma (((v2 :: vs2).map
            (formatField (v :: v2 :: vs2).length))) ++ ['\r', '\n'])), ?_, hc.1, hc.2⟩
          rw [show joinComma ((v :: v2 :: vs2).map (formatField (v :: v2 :: vs2).length))
              = formatField (v :: v2 :: vs2).length v ++ ([','] ++ joinComma
                ((v2 :: vs2).map (formatField (v :: v2 :: vs2).length))) from by
            simp [joinComma]]
          rw [hfv]
          simp
    obtain ⟨c, cs, hcs, hcr, hcn⟩ := hstream
    rw [show formatRow (v :: vs)
        = joinComma (((v :: vs).map (formatField (v :: vs).length))) ++ ['\r', '\n']
        from rfl]
    rw [hcs, csvRun_cons, csvStep_start_eq c hcr hcn rows, ← csvRun_cons, ← hcs]
    have := run_fieldsRow (v :: vs).length (v :: vs) (by simp) [] rows
    simpa using this

/-- Reading a concatenation of rendered rows recovers exactly those rows. -/
theorem run_formatRows (rs : List (List (List Char))) :
    ∀ (rows0 : List (List (List Char))),
      csvRun ⟨.startRecord, [], [], rows0⟩ ((rs.map formatRow).flatten)
        = ⟨.startRecord, [], [], rows0 ++ rs⟩ := by
  induction rs with
  | nil => intro rows0; simp [csvRun]
  | cons a l ih =>
    intro rows0
    rw [List.map_cons, List.flatten_cons, csvRun_append, run_formatRow, ih]
    simp

/-- The reader inverts the writer: parsing a concatenation of rendered
rows yields exactly those rows. -/
theorem parseCSV_formatRows (rs : List (List (List Char))) :
    parseCSV ((rs.map formatRow).flatten) = rs := by
  rw [parseCSV, run_formatRows]
  rfl

/-! ## Theorems for save_to_csv -/

/-- A record whose keys all lie in the field list passes the
`extrasaction="raise"` check. -/
theorem hasExtraKey_eq_false (fields : List String) (r : CsvRecord)
    (h : ∀ kv ∈ r, kv.1 ∈ fields) : hasExtraKey fields r = false := by
  rw [hasExtraKey, List.any_eq_false]
  intro kv hkv
  simp [List.elem_iff]
  exact h kv hkv

/-- When no record has an extra key, the row loop writes every rendered
row and raises nothing. -/
theorem writeRows_ok (fields : List String) :
    ∀ (results : List CsvRecord),
      (∀ r ∈ results, hasExtraKey fields r = false) →
      writeRows fields results
        = (((results.map (fun r => formatRow (projectRow fields r)))).flatten, false) := by
  intro results
  induction results with
  | nil => intro _; rfl
  | cons r rs ih =>
    intro h
    rw [writeRows, h r (List.mem_cons_self r rs)]
    simp only [Bool.false_eq_true, if_false]
    rw [ih (fun x hx => h x (List.mem_cons_of_mem r hx))]
    simp

/-- C3: for every field list and every record list whose records only use
configured fields, writing the CSV raises nothing and re-reading the
written text yields the header row (the field list, in order) followed by
one data row per record, in order, each row holding the record's values in
field order with absent fields rendered as `""`. -/
theorem save_to_csv_roundtrip (fields : List String) (results : List CsvRecord)
    (h : ∀ r ∈ results, ∀ kv ∈ r, kv.1 ∈ fields) :
    (save_to_csv fields results).2 = false ∧
    parseCSV (save_to_csv fields results).1
      = (fields.map String.data) :: results.map (projectRow fields) := by
  have hok : ∀ r ∈ results, hasExtraKey fields r = false :=
    fun r hr => hasExtraKey_eq_false fields r (h r hr)
  have hw := writeRows_ok fields results hok
  constructor
  · show (writeRows fields results).2 = false
    rw [hw]
  · show parseCSV (formatRow (fields.map String.data)
        ++ (writeRows fields results).1) = _
    rw [hw]
    have : formatRow (fields.map String.data)
          ++ ((results.map (fun r => formatRow (projectRow fields r)))).flatten
        = ((((fields.map String.data) :: results.map (projectRow fields)).map
            formatRow)).flatten := by
      simp [List.map_cons, List.flatten_cons, List.map_map]
      rfl
    rw [this, parseCSV_formatRows]

/-- Witness for C3 on a concrete batch: a record with a comma and a quote
in a value (exercising quoting and escaping) and a record missing the
`filename` field (rendered as `""`). -/
theorem save_to_csv_roundtrip_witness :
    (∀ r ∈ ([[("email", "a,b\"c")], []] : List CsvRecord),
      ∀ kv ∈ r, kv.1 ∈ ["filename", "email"]) ∧
    (save_to_csv ["filename", "email"] [[("email", "a,b\"c")], []]).2 = false ∧
    parseCSV (save_to_csv ["filename", "email"] [[("email", "a,b\"c")], []]).1
      = (["filename", "email"].map String.data)
        :: ([[("email", "a,b\"c")], []] : List CsvRecord).map
            (projectRow ["filename", "email"]) :=
  ⟨by decide,
   (save_to_csv_roundtrip ["filename", "email"] [[("email", "a,b\"c")], []]
     (by decide)).1,
   (save_to_csv_roundtrip ["filename", "email"] [[("email", "a,b\"c")], []]
     (by decide)).2⟩

/-- A record containing a key outside the field list makes the row loop
raise after writing the preceding rows. -/
theorem writeRows_extra (fields : List String) :
    ∀ (results : List CsvRecord),
      (∃ r ∈ results, hasExtraKey fields r = true) →
      writeRows fields results
        = ((((results.takeWhile (fun r => !(hasExtraKey fields r))).map
            (fun r => formatRow (projectRow fields r)))).flatten, true) := by
  intro results
  induction results with
  | nil => rintro ⟨r, hr, _⟩; cases hr
  | cons r rs ih =>
    rintro ⟨r0, hr0, hx0⟩
    by_cases hr : hasExtraKey fields r = true
    · rw [writeRows, hr]
      simp [List.takeWhile_cons, hr]
    · have hrf : hasExtraKey fields r = false := by
        cases hv : hasExtraKey fields r
        · rfl
        · exact absurd hv hr
      have hmem : r0 ∈ rs := by
        rcases List.mem_cons.mp hr0 with rfl | hmem
        · exact absurd hx0 hr
        · exact hmem
      rw [writeRows, hrf]
      simp only [Bool.false_eq_true, if_false]
      rw [ih ⟨r0, hmem, hx0⟩]
      simp [List.takeWhile_cons, hrf]

/-- C10: when some record holds a field name outside the configured field
list, `save_to_csv` raises (`csv.DictWriter`'s default
`extrasaction="raise"`) instead of ignoring the extra field; by then the
file has been truncated and the header plus every row before the first
offending record written, so the file is not left unchanged. -/
theorem save_to_csv_extra_key (fields : List String) (results : List CsvRecord)
    (h : ∃ r ∈ results, ∃ kv ∈ r, kv.1 ∉ fields) :
    (save_to_csv fields results).2 = true ∧
    (save_to_csv fields results).1
      = formatRow (fields.map String.data)
        ++ (((results.takeWhile (fun r => !(hasExtraKey fields r))).map
            (fun r => formatRow (projectRow fields r)))).flatten ∧
    (save_to_csv fields results).1 ≠ [] := by
  obtain ⟨r, hr, kv, hkv, hout⟩ := h
  have hx : ∃ r ∈ results, hasExtraKey fields r = true := by
    refine ⟨r, hr, ?_⟩
    rw [hasExtraKey, List.any_eq_true]
    refine ⟨kv, hkv, ?_⟩
    simp [List.elem_iff, hout]
  have hw := writeRows_extra fields results hx
  refine ⟨?_, ?_, ?_⟩
  · show (writeRows fields results).2 = true
    rw [hw]
  · show formatRow (fields.map String.data) ++ (writeRows fields results).1 = _
    rw [hw]
  · show formatRow (fields.map String.data) ++ (writeRows fields results).1 ≠ []
    simp [formatRow]

/-- Witness for C10: the second record smuggles field `"b"` past a field
list of just `"a"`; the error is raised, and the file holds the header and
the first row only. -/
theorem save_to_csv_extra_key_witness :
    (∃ r ∈ ([[("a", "x")], [("b", "y")], [("a", "z")]] : List CsvRecord),
      ∃ kv ∈ r, kv.1 ∉ ["a"]) ∧
    (save_to_csv ["a"] [[("a", "x")], [("b", "y")], [("a", "z")]]).2 = true ∧
    (save_to_csv ["a"] [[("a", "x")], [("b", "y")], [("a", "z")]]).1 ≠ [] :=
  ⟨by decide,
   (save_to_csv_extra_key ["a"] [[("a", "x")], [("b", "y")], [("a", "z")]]
     (by decide)).1,
   (save_to_csv_extra_key ["a"] [[("a", "x")], [("b", "y")], [("a", "z")]]
     (by decide)).2.2⟩

end VisionParser
